import Mathlib

/-!
Shallow embedding of the chotion collaborative-editing backend
(Convex functions in `convex/docs.ts`, the members/collab/presence
modules, and the sync client in `src/components/editor/CollabEditor.tsx`).

Convex mutations are serializable transactions: a handler runs against a
snapshot of the database and either commits all of its writes or, when it
throws, commits none.  The embedding therefore models every query/mutation
handler as a pure function on a `DB` value; a thrown `ConvexError` is an
`Except.error` carrying the error kind, and in the error case the caller
keeps the old `DB` (rollback).  The authenticated caller resolved by
`getAuthUser` is passed explicitly as an `Option String` user id.
-/

deriving instance DecidableEq for Except

namespace Chotion

/-- Document visibility, `v.union(v.literal("private"), v.literal("public"))`. -/
inductive Visibility where
  | private_ : Visibility
  | public_ : Visibility
deriving DecidableEq, BEq

/-- Member role, `v.union(v.literal("editor"), v.literal("viewer"))`. -/
inductive Role where
  | editor : Role
  | viewer : Role
deriving DecidableEq, BEq

/-- Error kinds of the `ConvexError` codes thrown by the handlers:
401 Unauthenticated, 404 NotFound, 403 Forbidden, 400 BadRequest. -/
inductive Err where
  | unauthenticated : Err
  | notFound : Err
  | forbidden : Err
  | badRequest : Err
deriving DecidableEq, BEq

/-- A row of the `documents` table. -/
structure Document where
  id : Nat
  title : String
  ownerId : String
  visibility : Visibility
  updatedAt : Int
  lastSeq : Nat
deriving DecidableEq

/-- A row of the `documentMembers` table. -/
structure Membership where
  docId : Nat
  userId : String
  role : Role
  addedAt : Int
deriving DecidableEq

/-- A row of the `documentUpdates` table; `update` is the opaque CRDT
payload (`v.bytes()`), modelled as a list of bytes. -/
structure UpdateRow where
  docId : Nat
  seq : Nat
  update : List Nat
  userId : String
  clientId : Nat
  createdAt : Int
deriving DecidableEq

/-- A row of the `documentPresence` table. -/
structure PresenceRow where
  docId : Nat
  userId : String
  name : String
  image : Option String
  updatedAt : Int
deriving DecidableEq

/-- The Convex database state: the four tables of `convex/schema.ts`,
plus a fresh-id counter standing in for Convex document-id generation. -/
structure DB where
  nextId : Nat
  documents : List Document
  documentMembers : List Membership
  documentUpdates : List UpdateRow
  documentPresence : List PresenceRow
deriving DecidableEq

/-- `ctx.db.get(docId)` on the `documents` table. -/
def findDoc (db : DB) (docId : Nat) : Option Document :=
  db.documents.find? (fun d => d.id == docId)

/-- `getMemberRole`: unique lookup on index `by_docId_userId`. -/
def getMemberRole (db : DB) (docId : Nat) (userId : String) : Option Role :=
  (db.documentMembers.find? (fun m => m.docId == docId && m.userId == userId)).map
    (fun m => m.role)

/-- `canView(ctx, doc, userId)`: public docs are viewable by anyone;
otherwise the caller must be authenticated and be the owner or a member. -/
def canView (db : DB) (doc : Document) (userId : Option String) : Bool :=
  if doc.visibility == Visibility.public_ then true
  else
    match userId with
    | none => false
    | some uid =>
      if doc.ownerId == uid then true
      else (getMemberRole db doc.id uid).isSome

/-- `canEdit(ctx, doc, userId)`: owner or a member with role editor. -/
def canEdit (db : DB) (doc : Document) (userId : Option String) : Bool :=
  match userId with
  | none => false
  | some uid =>
    if doc.ownerId == uid then true
    else getMemberRole db doc.id uid == some Role.editor

/-- Result shape of `docs.get`: the document spread together with the
`isOwner` and `canEdit` flags. -/
structure DocWithFlags where
  doc : Document
  isOwner : Bool
  canEdit : Bool
deriving DecidableEq

/-- `docs.get` query handler: `null` when the document is missing or the
caller fails `canView` (SSR-safe), otherwise the document plus flags. -/
def docGet (db : DB) (caller : Option String) (docId : Nat) : Option DocWithFlags :=
  match findDoc db docId with
  | none => none
  | some doc =>
    if canView db doc caller then
      some { doc := doc,
             isOwner := (match caller with
                         | none => false
                         | some uid => doc.ownerId == uid),
             canEdit := canEdit db doc caller }
    else none

/-- `collab.submitUpdate` mutation handler: requires authentication, the
document, and `canEdit`; then in one transaction bumps `lastSeq`, stamps
`updatedAt`, inserts the update row, and returns the assigned seq. -/
def submitUpdate (db : DB) (caller : Option String) (docId : Nat)
    (payload : List Nat) (clientId : Nat) (now : Int) : Except Err (DB × Nat) :=
  match caller with
  | none => .error .unauthenticated
  | some userId =>
    match findDoc db docId with
    | none => .error .notFound
    | some doc =>
      if canEdit db doc (some userId) then
        let nextSeq := doc.lastSeq + 1
        let docs := db.documents.map (fun d =>
          if d.id == docId then { d with lastSeq := nextSeq, updatedAt := now } else d)
        let row : UpdateRow :=
          { docId := docId, seq := nextSeq, update := payload,
            userId := userId, clientId := clientId, createdAt := now }
        .ok ({ db with
                documents := docs,
                documentUpdates := db.documentUpdates ++ [row] }, nextSeq)
      else .error .forbidden

/-- `collab.getSeq` query handler: `{seq: doc.lastSeq}`, degrading to
`{seq: 0}` when the document is missing or the caller fails `canView`. -/
def getSeq (db : DB) (caller : Option String) (docId : Nat) : Nat :=
  match findDoc db docId with
  | none => 0
  | some doc => if canView db doc caller then doc.lastSeq else 0

/-- Ascending-seq order on update rows: the order the index `by_docId_seq`
yields with `.order("asc")`. -/
def seqAsc (a b : UpdateRow) : Prop := a.seq ≤ b.seq

instance : DecidableRel seqAsc := fun a b => Nat.decLe a.seq b.seq

instance : IsTotal UpdateRow seqAsc := ⟨fun a b => Nat.le_total a.seq b.seq⟩

instance : IsTrans UpdateRow seqAsc := ⟨fun _ _ _ h1 h2 => Nat.le_trans h1 h2⟩

/-- `collab.listUpdates` query handler: empty on missing document or failed
`canView`; otherwise the document's update rows with `seq > afterSeq`
(default 0), ascending by seq, capped at `Math.min(limit ?? 128, 512)`. -/
def listUpdates (db : DB) (caller : Option String) (docId : Nat)
    (afterSeq? limit? : Option Nat) : List UpdateRow :=
  match findDoc db docId with
  | none => []
  | some doc =>
    if canView db doc caller then
      let afterSeq := afterSeq?.getD 0
      let limit := min (limit?.getD 128) 512
      ((db.documentUpdates.filter
          (fun u => u.docId == docId && afterSeq < u.seq)).insertionSort seqAsc).take limit
    else []

/-- `PRESENCE_TIMEOUT_MS = 30_000`: the presence TTL in milliseconds. -/
def PRESENCE_TIMEOUT_MS : Int := 30000

/-- Descending-`updatedAt` order on presence rows: the order produced by
`.sort((a, b) => b.updatedAt - a.updatedAt)`. -/
def updatedAtDesc (a b : PresenceRow) : Prop := b.updatedAt ≤ a.updatedAt

instance : DecidableRel updatedAtDesc := fun a b => Int.decLe b.updatedAt a.updatedAt

instance : IsTotal PresenceRow updatedAtDesc := ⟨fun a b => Int.le_total b.updatedAt a.updatedAt⟩

instance : IsTrans PresenceRow updatedAtDesc := ⟨fun _ _ _ h1 h2 => Int.le_trans h2 h1⟩

/-- `presence.list` query handler: empty on missing document or failed
`canView`; otherwise the document's presence rows with
`updatedAt >= now - PRESENCE_TIMEOUT_MS`, sorted by `updatedAt` descending. -/
def presenceList (db : DB) (caller : Option String) (docId : Nat) (now : Int) :
    List PresenceRow :=
  match findDoc db docId with
  | none => []
  | some doc =>
    if canView db doc caller then
      let cutoff := now - PRESENCE_TIMEOUT_MS
      (db.documentPresence.filter
        (fun p => p.docId == docId && cutoff ≤ p.updatedAt)).insertionSort updatedAtDesc
    else []

/-- `presence.cleanup` mutation handler: requires authentication; silently
returns on missing document or non-owner caller; otherwise deletes the
document's presence rows with `updatedAt < now - PRESENCE_TIMEOUT_MS * 2`. -/
def cleanup (db : DB) (caller : Option String) (docId : Nat) (now : Int) :
    Except Err DB :=
  match caller with
  | none => .error .unauthenticated
  | some userId =>
    match findDoc db docId with
    | none => .ok db
    | some doc =>
      if doc.ownerId == userId then
        let cutoff := now - PRESENCE_TIMEOUT_MS * 2
        .ok { db with
               documentPresence := db.documentPresence.filter
                 (fun p => !(p.docId == docId && p.updatedAt < cutoff)) }
      else .ok db

/-- `docs.remove` mutation handler: requires authentication, the document,
and ownership; deletes the document's update, membership, and presence rows
(queried through the `by_docId*` indexes) and then the document itself. -/
def remove (db : DB) (caller : Option String) (docId : Nat) : Except Err DB :=
  match caller with
  | none => .error .unauthenticated
  | some userId =>
    match findDoc db docId with
    | none => .error .notFound
    | some doc =>
      if doc.ownerId == userId then
        .ok { db with
               documents := db.documents.filter (fun d => !(d.id == docId)),
               documentUpdates := db.documentUpdates.filter (fun u => !(u.docId == docId)),
               documentMembers := db.documentMembers.filter (fun m => !(m.docId == docId)),
               documentPresence := db.documentPresence.filter (fun p => !(p.docId == docId)) }
      else .error .forbidden

/-- `docs.create` mutation handler: requires authentication; inserts a
document with title `(args.title ?? "Untitled").trim() || "Untitled"`,
visibility default `private`, `lastSeq = 0`, and returns the new id. -/
def create (db : DB) (caller : Option String) (title? : Option String)
    (visibility? : Option Visibility) (now : Int) : Except Err (DB × Nat) :=
  match caller with
  | none => .error .unauthenticated
  | some userId =>
    let trimmed := (title?.getD "Untitled").trim
    let title := if trimmed == "" then "Untitled" else trimmed
    let id := db.nextId
    let doc : Document :=
      { id := id, title := title, ownerId := userId,
        visibility := visibility?.getD .private_, updatedAt := now, lastSeq := 0 }
    .ok ({ db with nextId := id + 1, documents := db.documents ++ [doc] }, id)

/-- `docs.updateTitle` mutation handler: requires authentication, the
document, and ownership; patches title to `args.title.trim() || "Untitled"`
and stamps `updatedAt`. -/
def updateTitle (db : DB) (caller : Option String) (docId : Nat)
    (title : String) (now : Int) : Except Err DB :=
  match caller with
  | none => .error .unauthenticated
  | some userId =>
    match findDoc db docId with
    | none => .error .notFound
    | some doc =>
      if doc.ownerId == userId then
        let trimmed := title.trim
        let newTitle := if trimmed == "" then "Untitled" else trimmed
        .ok { db with
               documents := db.documents.map (fun d =>
                 if d.id == docId then { d with title := newTitle, updatedAt := now } else d) }
      else .error .forbidden

/-!
Sync Client (`CollabEditor.tsx`).  The inbound effect iterates a delivered
batch, tracks `maxSeq`, skips rows whose `clientId` equals the local Yjs
`clientID`, applies the rest to the Yjs doc in batch order, and finally sets
`afterSeq` to `maxSeq` when it grew.  The outbound `flush` coalesces
`pending` with `Y.mergeUpdates`, clears it, awaits `submitUpdate`, logs any
error, and resets `isFlushing` in a `finally` block.
-/

/-- One iteration of the inbound loop: the accumulator carries the running
`maxSeq` and the list of payload rows applied to the local Yjs doc so far. -/
def inboundStep (localClientId : Nat) (acc : Nat × List UpdateRow) (u : UpdateRow) :
    Nat × List UpdateRow :=
  let maxSeq := max acc.1 u.seq
  if u.clientId == localClientId then (maxSeq, acc.2)
  else (maxSeq, acc.2 ++ [u])

/-- The inbound effect over a delivered batch: returns the new `afterSeq`
watermark and the rows merged into the local Yjs doc, in merge order. -/
def processInbound (localClientId : Nat) (afterSeq : Nat) (updates : List UpdateRow) :
    Nat × List UpdateRow :=
  updates.foldl (inboundStep localClientId) (afterSeq, [])

/-- Outcome of the awaited `submitUpdate` call inside `flush`: the promise
either resolves or rejects (network, permission, or transient store error). -/
inductive SubmitOutcome where
  | ok : SubmitOutcome
  | err : SubmitOutcome
deriving DecidableEq

/-- The sync client's outbound buffer state: the `pending` array of byte
payloads and the `isFlushing` flag of the flush closure. -/
structure FlushState where
  pending : List (List Nat)
  isFlushing : Bool
deriving DecidableEq

/-- The `flush` closure, parametric in the external `Y.mergeUpdates`.
Returns the post-`flush` buffer state and the payload passed to
`submitUpdate` (none when `flush` returned early).  Faithful to the source:
`pending` is cleared before the await, the `catch` block only logs, and the
`finally` block resets `isFlushing` — the same post-state results whether
the awaited call resolves or rejects. -/
def flush (merge : List (List Nat) → List Nat) (st : FlushState)
    (outcome : SubmitOutcome) : FlushState × Option (List Nat) :=
  if st.pending.isEmpty || st.isFlushing then (st, none)
  else
    let toSend := if st.pending.length == 1 then st.pending.headD [] else merge st.pending
    match outcome with
    | .ok => ({ pending := [], isFlushing := false }, some toSend)
    | .err => ({ pending := [], isFlushing := false }, some toSend)

/-- One `submitUpdate` invocation as issued by some editing session: its
authenticated caller, its payload, its session's Yjs clientId, and the
`Date.now()` its transaction observes.  Different elements of a run may
come from different users and different replicas. -/
structure SubmitCall where
  caller : String
  payload : List Nat
  clientId : Nat
  now : Int
deriving DecidableEq

/-- A serialized run of `submitUpdate` calls on one document: Convex
executes concurrent mutations as serializable transactions, so any N
concurrent `submitUpdate` calls — from the same or different
editors/replicas, with their own clientIds and timestamps — commit in some
sequential order, which this function models for an arbitrary interleaving
order `calls`. -/
def submitRun (db : DB) (docId : Nat) (calls : List SubmitCall) :
    Except Err (DB × List Nat) :=
  match calls with
  | [] => .ok (db, [])
  | c :: cs =>
    match submitUpdate db (some c.caller) docId c.payload c.clientId c.now with
    | .error e => .error e
    | .ok (db2, s) =>
      match submitRun db2 docId cs with
      | .error e => .error e
      | .ok (db3, ss) => .ok (db3, s :: ss)

/-! Concrete states used by the witness and counterexample theorems. -/

/-- A private document owned by alice with five appended updates. -/
def docAlice : Document :=
  { id := 1, title := "Notes", ownerId := "alice", visibility := .private_,
    updatedAt := 0, lastSeq := 5 }

/-- A public document owned by alice. -/
def docPub : Document :=
  { id := 1, title := "Notes", ownerId := "alice", visibility := .public_,
    updatedAt := 0, lastSeq := 0 }

/-- State for the access-control witnesses: alice's document with bob as a
viewer-role member. -/
def dbViewer : DB :=
  { nextId := 2, documents := [docPub],
    documentMembers := [{ docId := 1, userId := "bob", role := .viewer, addedAt := 0 }],
    documentUpdates := [], documentPresence := [] }

/-- State for the append witnesses: alice's private document, no members. -/
def dbOwner : DB :=
  { nextId := 2, documents := [docAlice],
    documentMembers := [], documentUpdates := [], documentPresence := [] }

/-- State for the concurrent-append witness: alice's private document with
carol added as an editor-role member, so two distinct users can append. -/
def dbTwoEditors : DB :=
  { nextId := 2, documents := [docAlice],
    documentMembers := [{ docId := 1, userId := "carol", role := .editor, addedAt := 0 }],
    documentUpdates := [], documentPresence := [] }

/-- A serialized interleaving of three concurrent appends from two
different sessions: alice (clientId 5) and carol (clientId 6). -/
def callsTwoEditors : List SubmitCall :=
  [{ caller := "alice", payload := [1], clientId := 5, now := 100 },
   { caller := "carol", payload := [2], clientId := 6, now := 101 },
   { caller := "alice", payload := [3], clientId := 5, now := 102 }]

/-- State for the presence-TTL theorems: a public document with one
presence row, `updatedAt = 70000`. -/
def dbPresence30 : DB :=
  { nextId := 2, documents := [docPub],
    documentMembers := [], documentUpdates := [],
    documentPresence :=
      [{ docId := 1, userId := "bob", name := "Bob", image := none, updatedAt := 70000 }] }

/-- State for the cleanup-boundary theorems: alice's document with one
presence row aged exactly `2 * PRESENCE_TIMEOUT_MS` at `now = 100000`. -/
def dbPresence60 : DB :=
  { nextId := 2, documents := [docPub],
    documentMembers := [], documentUpdates := [],
    documentPresence :=
      [{ docId := 1, userId := "bob", name := "Bob", image := none, updatedAt := 40000 }] }

/-- State for the cascade-delete and listUpdates witnesses: alice's public
document with three updates, a member, and a presence row. -/
def dbFull : DB :=
  { nextId := 2, documents := [docPub],
    documentMembers := [{ docId := 1, userId := "bob", role := .viewer, addedAt := 0 }],
    documentUpdates :=
      [{ docId := 1, seq := 2, update := [2], userId := "alice", clientId := 7, createdAt := 0 },
       { docId := 1, seq := 1, update := [1], userId := "alice", clientId := 7, createdAt := 0 },
       { docId := 1, seq := 3, update := [3], userId := "alice", clientId := 9, createdAt := 0 }],
    documentPresence :=
      [{ docId := 1, userId := "bob", name := "Bob", image := none, updatedAt := 0 }] }

/-- A delivered batch for the inbound-path witness: seqs 1..3, the row with
seq 2 authored by the local client (clientId 5). -/
def batchIn : List UpdateRow :=
  [{ docId := 1, seq := 1, update := [1], userId := "alice", clientId := 7, createdAt := 0 },
   { docId := 1, seq := 2, update := [2], userId := "bob", clientId := 5, createdAt := 0 },
   { docId := 1, seq := 3, update := [3], userId := "alice", clientId := 7, createdAt := 0 }]

/-- The concatenation stand-in for the external `Y.mergeUpdates` used when
evaluating `flush` at concrete inputs. -/
def concatMerge (ps : List (List Nat)) : List Nat := ps.foldl (fun a b => a ++ b) []

/-! ## Theorems -/

/-- C6: the read operations degrade to neutral results — `docs.get` returns
`null`, `collab.listUpdates` the empty list, `collab.getSeq` `{seq: 0}`, and
`presence.list` the empty list — both when the document is missing and when
the caller fails `canView`; none of them throws (they are total functions of
the embedding). -/
theorem read_ops_neutral (db : DB) (docId : Nat) (c : Option String)
    (a? l? : Option Nat) (now : Int) :
    (findDoc db docId = none →
      docGet db c docId = none ∧ listUpdates db c docId a? l? = [] ∧
      getSeq db c docId = 0 ∧ presenceList db c docId now = []) ∧
    (∀ d, findDoc db docId = some d → canView db d c = false →
      docGet db c docId = none ∧ listUpdates db c docId a? l? = [] ∧
      getSeq db c docId = 0 ∧ presenceList db c docId now = []) := by
  constructor
  · intro h
    simp [docGet, listUpdates, getSeq, presenceList, h]
  · intro d hd hv
    simp [docGet, listUpdates, getSeq, presenceList, hd, hv]

/-- Witness for C6: a missing docId (9) and a private document (1) read by
an unauthenticated caller both yield the neutral results. -/
theorem read_ops_neutral_witness :
    (docGet dbOwner none 9 = none ∧ listUpdates dbOwner none 9 none none = [] ∧
     getSeq dbOwner none 9 = 0 ∧ presenceList dbOwner none 9 0 = []) ∧
    (docGet dbOwner none 1 = none ∧ listUpdates dbOwner none 1 none none = [] ∧
     getSeq dbOwner none 1 = 0 ∧ presenceList dbOwner none 1 0 = []) :=
  ⟨(read_ops_neutral dbOwner 9 none none none 0).1 (by decide),
   (read_ops_neutral dbOwner 1 none none none 0).2 docAlice (by decide) (by decide)⟩

/-- C4: a caller whose only relation to the document is a viewer-role
membership gets `Forbidden` (403) from `submitUpdate` — and since a thrown
`ConvexError` aborts the Convex transaction, no write of the handler
commits, leaving `lastSeq` and the update log unchanged — while an
unauthenticated caller reading a public document via `docs.get` receives
the document data rather than an error. -/
theorem viewer_forbidden_public_readable (db : DB) (docId : Nat) (u : String)
    (d : Document) (payload : List Nat) (clientId : Nat) (now : Int)
    (hfind : findDoc db docId = some d) :
    (d.ownerId ≠ u → getMemberRole db docId u = some Role.viewer →
      submitUpdate db (some u) docId payload clientId now = .error .forbidden) ∧
    (d.visibility = .public_ →
      docGet db none docId = some { doc := d, isOwner := false, canEdit := false }) := by
  have hid : d.id = docId := by
    have := List.find?_some hfind
    simpa using this
  constructor
  · intro hown hrole
    have hedit : canEdit db d (some u) = false := by
      simp [canEdit, hid, hrole, hown]; decide
    simp [submitUpdate, hfind, hedit]
  · intro hpub
    have hview : canView db d none = true := by simp [canView, hpub]; decide
    have hedit : canEdit db d none = false := by simp [canEdit]
    simp [docGet, hfind, hview, hedit]

/-- Witness for C4: bob (viewer on alice's public document) is forbidden to
submit, and an unauthenticated `docs.get` on the same public document
returns its data. -/
theorem viewer_forbidden_public_readable_witness :
    submitUpdate dbViewer (some "bob") 1 [7] 42 100 = .error .forbidden ∧
    docGet dbViewer none 1 = some { doc := docPub, isOwner := false, canEdit := false } :=
  ⟨(viewer_forbidden_public_readable dbViewer 1 "bob" docPub [7] 42 100 (by decide)).1
      (by decide) (by decide),
   (viewer_forbidden_public_readable dbViewer 1 "bob" docPub [7] 42 100 (by decide)).2
      (by decide)⟩

/-- C2, evaluated at the failing input: a `flush` whose `submitUpdate`
promise rejects leaves `pending` empty — the coalesced payload `[1, 2]` it
sent is discarded by the `catch`-and-log path, not re-inserted at the front
of the buffer — while `isFlushing` does return to false. -/
theorem flush_drops_payload_on_error :
    flush concatMerge { pending := [[1, 2]], isFlushing := false } .err
      = ({ pending := [], isFlushing := false }, some [1, 2]) ∧
    ({ pending := [], isFlushing := false } : FlushState).pending ≠ [[1, 2]] := by
  decide

/-- C7 counterexample: in `dbPresence30` the single presence row is aged
exactly 30s at `now = 100000` (`now - updatedAt = PRESENCE_TIMEOUT_MS`),
yet `presence.list` returns it — the source filter is
`p.updatedAt >= cutoff`, so a row aged exactly the TTL is included, not
excluded as the claim states. -/
theorem presence_ttl_boundary_cex :
    presenceList dbPresence30 none 1 100000 =
      [{ docId := 1, userId := "bob", name := "Bob", image := none, updatedAt := 70000 }] ∧
    (100000 : Int) - 70000 = PRESENCE_TIMEOUT_MS := by
  decide

/-- C7 amended: for a caller passing `canView` on an existing document,
`presence.list` returns exactly the document's presence rows with
`now - updatedAt ≤ TTL` (so a row aged 31s is excluded, one aged 29s is
included, and one aged exactly 30s is included), sorted by `updatedAt`
descending. -/
theorem presence_list_ttl (db : DB) (caller : Option String) (docId : Nat)
    (now : Int) (d : Document)
    (hfind : findDoc db docId = some d) (hview : canView db d caller = true) :
    (∀ p, p ∈ presenceList db caller docId now ↔
      (p ∈ db.documentPresence ∧ p.docId = docId ∧
        now - p.updatedAt ≤ PRESENCE_TIMEOUT_MS)) ∧
    (presenceList db caller docId now).Pairwise updatedAtDesc := by
  constructor
  · intro p
    simp only [presenceList, hfind, hview, if_true, List.mem_insertionSort,
      List.mem_filter, Bool.and_eq_true, beq_iff_eq, decide_eq_true_eq]
    constructor
    · rintro ⟨hp, hd, hc⟩
      exact ⟨hp, hd, by omega⟩
    · rintro ⟨hp, hd, hc⟩
      exact ⟨hp, hd, by omega⟩
  · simp only [presenceList, hfind, hview, if_true]
    exact List.sorted_insertionSort updatedAtDesc _

/-- Witness for the amended C7: the row aged exactly 30s in `dbPresence30`
is characterized by the filter and the result is sorted. -/
theorem presence_list_ttl_witness :
    (∀ p, p ∈ presenceList dbPresence30 none 1 100000 ↔
      (p ∈ dbPresence30.documentPresence ∧ p.docId = 1 ∧
        (100000 : Int) - p.updatedAt ≤ PRESENCE_TIMEOUT_MS)) ∧
    (presenceList dbPresence30 none 1 100000).Pairwise updatedAtDesc :=
  presence_list_ttl dbPresence30 none 1 100000 docPub (by decide) (by decide)

/-- C8 counterexample: in `dbPresence60` the single presence row is aged
exactly `2 * TTL` (60s) at `now = 100000`, yet owner-invoked `cleanup`
leaves the database unchanged — the source deletes only rows with
`updatedAt < now - 2*TTL`, i.e. age strictly greater than 60s, so a row
aged exactly 60s survives rather than being deleted as the claim states. -/
theorem cleanup_boundary_cex :
    cleanup dbPresence60 (some "alice") 1 100000 = .ok dbPresence60 ∧
    (100000 : Int) - 40000 = 2 * PRESENCE_TIMEOUT_MS := by
  decide

/-- C8 amended: for the owner of an existing document, `cleanup` deletes
exactly the document's presence rows with age strictly greater than
`2 * TTL` (60s); every row with age at most `2 * TTL` — including one aged
exactly 60s — and every row of other documents survives. -/
theorem cleanup_strictly_stale (db : DB) (docId : Nat) (u : String)
    (now : Int) (d : Document)
    (hfind : findDoc db docId = some d) (howner : d.ownerId = u) :
    ∃ db2, cleanup db (some u) docId now = .ok db2 ∧
      db2.documents = db.documents ∧
      ∀ p, p ∈ db2.documentPresence ↔
        (p ∈ db.documentPresence ∧
          ¬(p.docId = docId ∧ 2 * PRESENCE_TIMEOUT_MS < now - p.updatedAt)) := by
  have hown : (d.ownerId == u) = true := by simp [howner]
  refine ⟨{ db with
             documentPresence := db.documentPresence.filter
               (fun p => !(p.docId == docId &&
                 decide (p.updatedAt < now - PRESENCE_TIMEOUT_MS * 2))) },
          ?_, rfl, ?_⟩
  · simp only [cleanup, hfind, hown, if_true]
  intro p
  simp only [PRESENCE_TIMEOUT_MS, List.mem_filter, Bool.not_eq_true', Bool.and_eq_false_iff,
    beq_eq_false_iff_ne, ne_eq, decide_eq_false_iff_not, not_lt]
  constructor
  · rintro ⟨hp, h⟩
    refine ⟨hp, ?_⟩
    rintro ⟨h1, h2⟩
    rcases h with h | h
    · exact h h1
    · omega
  · rintro ⟨hp, h⟩
    refine ⟨hp, ?_⟩
    by_cases h1 : p.docId = docId
    · refine Or.inr ?_
      have h2 : ¬((2 : Int) * 30000 < now - p.updatedAt) := fun hx => h ⟨h1, hx⟩
      omega
    · exact Or.inl h1

/-- Witness for the amended C8: in `dbPresence60` the surviving rows are
characterized by the strict-age filter. -/
theorem cleanup_strictly_stale_witness :
    ∃ db2, cleanup dbPresence60 (some "alice") 1 100000 = .ok db2 ∧
      db2.documents = dbPresence60.documents ∧
      ∀ p, p ∈ db2.documentPresence ↔
        (p ∈ dbPresence60.documentPresence ∧
          ¬(p.docId = 1 ∧ 2 * PRESENCE_TIMEOUT_MS < (100000 : Int) - p.updatedAt)) :=
  cleanup_strictly_stale dbPresence60 1 "alice" 100000 docPub (by decide) (by decide)

/-- Characterization of the inbound fold: the watermark accumulates the
running maximum of the delivered seqs, and the merged rows are the foreign
rows appended in batch order. -/
theorem processInbound_foldl (l : Nat) (us : List UpdateRow) :
    ∀ (a : Nat) (m : List UpdateRow),
      us.foldl (inboundStep l) (a, m) =
        (us.foldl (fun w u => max w u.seq) a,
         m ++ us.filter (fun u => !(u.clientId == l))) := by
  induction us with
  | nil => intro a m; simp
  | cons u us ih =>
    intro a m
    simp only [List.foldl_cons, inboundStep, List.filter_cons]
    cases h : u.clientId == l
    · simp only [Bool.false_eq_true, if_false, Bool.not_false, if_true, ih,
        List.append_assoc, List.singleton_append]
    · simp only [if_true, Bool.not_true, Bool.false_eq_true, if_false, ih]

/-- The running maximum dominates its seed. -/
theorem le_foldl_maxSeq (us : List UpdateRow) :
    ∀ a : Nat, a ≤ us.foldl (fun w u => max w u.seq) a := by
  induction us with
  | nil => intro a; simp
  | cons u us ih =>
    intro a
    exact le_trans (le_max_left a u.seq) (ih (max a u.seq))

/-- The running maximum dominates every delivered seq. -/
theorem mem_le_foldl_maxSeq (us : List UpdateRow) :
    ∀ (a : Nat), ∀ u ∈ us, u.seq ≤ us.foldl (fun w u => max w u.seq) a := by
  induction us with
  | nil => intro a u hu; simp at hu
  | cons v us ih =>
    intro a u hu
    rcases List.mem_cons.mp hu with h | h
    · subst h
      exact le_trans (le_max_right a u.seq) (le_foldl_maxSeq us (max a u.seq))
    · exact ih (max a v.seq) u h

/-- The running maximum is the seed or one of the delivered seqs. -/
theorem foldl_maxSeq_cases (us : List UpdateRow) :
    ∀ a : Nat, us.foldl (fun w u => max w u.seq) a = a ∨
      ∃ u ∈ us, us.foldl (fun w u => max w u.seq) a = u.seq := by
  induction us with
  | nil => intro a; exact Or.inl rfl
  | cons v us ih =>
    intro a
    rcases ih (max a v.seq) with h | ⟨u, hu, h⟩
    · rcases max_choice a v.seq with hm | hm
      · exact Or.inl (by rw [List.foldl_cons, h, hm])
      · exact Or.inr ⟨v, List.mem_cons_self v us, by rw [List.foldl_cons, h, hm]⟩
    · exact Or.inr ⟨u, List.mem_cons_of_mem v hu, by rw [List.foldl_cons, h]⟩

/-- C3: the inbound path never applies (never merges) a delivered update
whose `clientId` equals the local replica's Yjs `clientID` — the merged rows
are exactly the foreign rows, in delivered (ascending-seq) order — yet the
new `afterSeq` watermark still dominates every delivered seq, echoes
included, and when the batch is nonempty and past the old watermark it ends
at the maximum delivered seq. -/
theorem inbound_echo_suppression (l a : Nat) (us : List UpdateRow) :
    ((processInbound l a us).2 = us.filter (fun u => !(u.clientId == l))) ∧
    (∀ u ∈ (processInbound l a us).2, u.clientId ≠ l) ∧
    a ≤ (processInbound l a us).1 ∧
    (∀ u ∈ us, u.seq ≤ (processInbound l a us).1) ∧
    ((processInbound l a us).1 = a ∨ ∃ u ∈ us, (processInbound l a us).1 = u.seq) ∧
    (us.Pairwise seqAsc → (processInbound l a us).2.Pairwise seqAsc) := by
  have h := processInbound_foldl l us a []
  have h2 : (processInbound l a us).2 = us.filter (fun u => !(u.clientId == l)) := by
    simp [processInbound, h]
  have h1 : (processInbound l a us).1 = us.foldl (fun w u => max w u.seq) a := by
    simp [processInbound, h]
  refine ⟨h2, ?_, ?_, ?_, ?_, ?_⟩
  · intro u hu
    rw [h2] at hu
    have := (List.mem_filter.mp hu).2
    simpa using this
  · rw [h1]; exact le_foldl_maxSeq us a
  · intro u hu; rw [h1]; exact mem_le_foldl_maxSeq us a u hu
  · rw [h1]; exact foldl_maxSeq_cases us a
  · intro hp
    rw [h2]
    exact List.Pairwise.sublist (List.filter_sublist us) hp

/-- Witness for C3: on the concrete batch `batchIn` (seqs 1–3, seq 2 being
a local echo with clientId 5) the merged rows are exactly the foreign rows,
and as evaluated the watermark ends at 3 while only seqs 1 and 3 merge. -/
theorem inbound_echo_suppression_witness :
    ((processInbound 5 0 batchIn).2 = batchIn.filter (fun u => !(u.clientId == 5)) ∧
      0 ≤ (processInbound 5 0 batchIn).1) ∧
    (processInbound 5 0 batchIn).1 = 3 ∧
    (processInbound 5 0 batchIn).2.map (fun u => u.seq) = [1, 3] :=
  ⟨⟨(inbound_echo_suppression 5 0 batchIn).1,
    (inbound_echo_suppression 5 0 batchIn).2.2.1⟩, by decide, by decide⟩

/-- C5: for a caller passing `canView` on an existing document,
`listUpdates` returns only the document's rows with `seq > afterSeq`
(`afterSeq` defaulting to 0), in ascending seq order, at most
`min(limit, 512)` of them (`limit` defaulting to 128 when absent), and it
omits a qualifying row only when the cap was reached. -/
theorem listUpdates_spec (db : DB) (caller : Option String) (docId : Nat)
    (a? l? : Option Nat) (d : Document)
    (hfind : findDoc db docId = some d) (hview : canView db d caller = true) :
    (∀ u ∈ listUpdates db caller docId a? l?, u.docId = docId ∧ a?.getD 0 < u.seq) ∧
    (listUpdates db caller docId a? l?).length ≤ min (l?.getD 128) 512 ∧
    (listUpdates db caller docId a? l?).Pairwise seqAsc ∧
    (∀ u ∈ db.documentUpdates, u.docId = docId → a?.getD 0 < u.seq →
      u ∈ listUpdates db caller docId a? l? ∨
        (listUpdates db caller docId a? l?).length = min (l?.getD 128) 512) := by
  have hl : listUpdates db caller docId a? l? =
      ((db.documentUpdates.filter
          (fun u => u.docId == docId && a?.getD 0 < u.seq)).insertionSort seqAsc).take
        (min (l?.getD 128) 512) := by
    simp [listUpdates, hfind, hview]
  rw [hl]
  refine ⟨?_, ?_, ?_, ?_⟩
  · intro u hu
    have hm := List.mem_of_mem_take hu
    rw [List.mem_insertionSort] at hm
    have hpred := (List.mem_filter.mp hm).2
    simpa using hpred
  · rw [List.length_take]
    exact min_le_left _ _
  · exact List.Pairwise.sublist (List.take_sublist _ _)
      (List.sorted_insertionSort seqAsc _)
  · intro u hu hd hs
    by_cases hlen :
        ((db.documentUpdates.filter
          (fun u => u.docId == docId && a?.getD 0 < u.seq)).insertionSort seqAsc).length ≤
          min (l?.getD 128) 512
    · refine Or.inl ?_
      rw [List.take_of_length_le hlen, List.mem_insertionSort]
      exact List.mem_filter.mpr ⟨hu, by simp [hd, hs]⟩
    · refine Or.inr ?_
      rw [List.length_take]
      exact Nat.min_eq_left (le_of_lt (lt_of_not_le hlen))

/-- Witness for C5: `listUpdates` on `dbFull` (three rows, seqs 1–3) with
`afterSeq = 1` and `limit = 1` satisfies the soundness, cap, ordering, and
conditional-completeness properties. -/
theorem listUpdates_spec_witness :
    (∀ u ∈ listUpdates dbFull none 1 (some 1) (some 1), u.docId = 1 ∧ 1 < u.seq) ∧
    (listUpdates dbFull none 1 (some 1) (some 1)).length ≤ min 1 512 ∧
    (listUpdates dbFull none 1 (some 1) (some 1)).Pairwise seqAsc ∧
    (∀ u ∈ dbFull.documentUpdates, u.docId = 1 → 1 < u.seq →
      u ∈ listUpdates dbFull none 1 (some 1) (some 1) ∨
        (listUpdates dbFull none 1 (some 1) (some 1)).length = min 1 512) :=
  listUpdates_spec dbFull none 1 (some 1) (some 1) docPub (by decide) (by decide)

/-- A lookup cannot find an element in the list from which every match was
filtered out. -/
theorem find?_filter_self_none {α} (p : α → Bool) (l : List α) :
    (l.filter (fun x => !(p x))).find? p = none := by
  apply List.find?_eq_none.mpr
  intro x hx
  have h := (List.mem_filter.mp hx).2
  simp only [Bool.not_eq_true'] at h
  simp [h]

/-- Filtering for matches after filtering them out yields nothing. -/
theorem filter_filter_self_nil {α} (p : α → Bool) (l : List α) :
    (l.filter (fun x => !(p x))).filter p = [] := by
  apply List.filter_eq_nil_iff.mpr
  intro x hx
  have h := (List.mem_filter.mp hx).2
  simp only [Bool.not_eq_true'] at h
  simp [h]

/-- The four read operations degrade to their neutral results when the
document is missing. -/
theorem neutral_of_missing (db : DB) (docId : Nat) (c : Option String)
    (a? l? : Option Nat) (now : Int) (h : findDoc db docId = none) :
    docGet db c docId = none ∧ listUpdates db c docId a? l? = [] ∧
    getSeq db c docId = 0 ∧ presenceList db c docId now = [] := by
  simp [docGet, listUpdates, getSeq, presenceList, h]

/-- C9: for the owner of an existing document, `remove` succeeds and
afterwards no update, membership, or presence row of that document remains
(no orphaned child row), the document itself is gone, and `docs.get`,
`collab.listUpdates`, and `presence.list` for that id behave as
not-found/empty for every caller.  The handler deletes the child rows
before the document row; within the embedding the whole mutation is one
transaction, so only the combined post-state is observable. -/
theorem remove_cascades (db : DB) (docId : Nat) (u : String) (d : Document)
    (hfind : findDoc db docId = some d) (howner : d.ownerId = u) :
    ∃ db2, remove db (some u) docId = .ok db2 ∧
      findDoc db2 docId = none ∧
      db2.documentUpdates.filter (fun x => x.docId == docId) = [] ∧
      db2.documentMembers.filter (fun m => m.docId == docId) = [] ∧
      db2.documentPresence.filter (fun p => p.docId == docId) = [] ∧
      (∀ c, docGet db2 c docId = none) ∧
      (∀ c a? l?, listUpdates db2 c docId a? l? = []) ∧
      (∀ c now, presenceList db2 c docId now = []) := by
  have hown : (d.ownerId == u) = true := by simp [howner]
  refine ⟨{ db with
             documents := db.documents.filter (fun x => !(x.id == docId)),
             documentUpdates := db.documentUpdates.filter (fun x => !(x.docId == docId)),
             documentMembers := db.documentMembers.filter (fun m => !(m.docId == docId)),
             documentPresence := db.documentPresence.filter (fun p => !(p.docId == docId)) },
          ?_, ?_, ?_, ?_, ?_, ?_, ?_, ?_⟩
  · simp only [remove, hfind, hown, if_true]
  · exact find?_filter_self_none _ _
  · exact filter_filter_self_nil _ _
  · exact filter_filter_self_nil _ _
  · exact filter_filter_self_nil _ _
  · intro c
    refine (neutral_of_missing _ docId c none none 0 ?_).1
    exact find?_filter_self_none _ _
  · intro c a? l?
    refine (neutral_of_missing _ docId c a? l? 0 ?_).2.1
    exact find?_filter_self_none _ _
  · intro c now
    refine (neutral_of_missing _ docId c none none now ?_).2.2.2
    exact find?_filter_self_none _ _

/-- Witness for C9: alice removes her document in `dbFull`; all three
child tables are emptied of its rows and the reads degrade. -/
theorem remove_cascades_witness :
    ∃ db2, remove dbFull (some "alice") 1 = .ok db2 ∧
      findDoc db2 1 = none ∧
      db2.documentUpdates.filter (fun x => x.docId == 1) = [] ∧
      db2.documentMembers.filter (fun m => m.docId == 1) = [] ∧
      db2.documentPresence.filter (fun p => p.docId == 1) = [] ∧
      (∀ c, docGet db2 c 1 = none) ∧
      (∀ c a? l?, listUpdates db2 c 1 a? l? = []) ∧
      (∀ c now, presenceList db2 c 1 now = []) :=
  remove_cascades dbFull 1 "alice" docPub (by decide) (by decide)

/-- Patching the found document through an id-preserving function patches
what a subsequent lookup finds. -/
theorem find?_map_patch (l : List Document) (i : Nat) (f : Document → Document)
    (hf : ∀ x, (f x).id = x.id) (d : Document)
    (h : l.find? (fun x => x.id == i) = some d) :
    (l.map (fun x => if x.id == i then f x else x)).find? (fun x => x.id == i)
      = some (f d) := by
  induction l with
  | nil => simp at h
  | cons x xs ih =>
    by_cases hx : (x.id == i) = true
    · have hfx : List.find? (fun y => y.id == i) (x :: xs) = some x :=
        List.find?_cons_of_pos xs hx
      rw [hfx] at h
      injection h with h
      subst h
      simp only [List.map_cons, hx, if_true]
      exact List.find?_cons_of_pos _ (by rw [hf]; exact hx)
    · have hfx : List.find? (fun y => y.id == i) (x :: xs) =
          List.find? (fun y => y.id == i) xs :=
        List.find?_cons_of_neg xs hx
      rw [hfx] at h
      simp only [List.map_cons, hx, Bool.false_eq_true, if_false]
      have hstep : List.find? (fun y => y.id == i)
            (x :: List.map (fun y => if (y.id == i) = true then f y else y) xs) =
          List.find? (fun y => y.id == i)
            (List.map (fun y => if (y.id == i) = true then f y else y) xs) :=
        List.find?_cons_of_neg _ hx
      rw [hstep]
      exact ih h

/-- C10: a successful `docs.create` (with a fresh id) and a successful
owner `docs.updateTitle` both store a non-empty title: the argument is
trimmed, and an absent, empty, or whitespace-only title becomes the
literal string "Untitled". -/
theorem titles_never_empty (db : DB) (u : String) (title? : Option String)
    (vis? : Option Visibility) (now : Int) (docId : Nat) (newTitle : String)
    (d : Document)
    (hfresh : ∀ x ∈ db.documents, x.id ≠ db.nextId)
    (hfind : findDoc db docId = some d) (howner : d.ownerId = u) :
    (∃ db2 d2, create db (some u) title? vis? now = .ok (db2, db.nextId) ∧
      findDoc db2 db.nextId = some d2 ∧ d2.title ≠ "" ∧
      ((title?.getD "Untitled").trim ≠ "" → d2.title = (title?.getD "Untitled").trim) ∧
      ((title?.getD "Untitled").trim = "" → d2.title = "Untitled")) ∧
    (∃ db2 d2, updateTitle db (some u) docId newTitle now = .ok db2 ∧
      findDoc db2 docId = some d2 ∧ d2.title ≠ "" ∧
      (newTitle.trim ≠ "" → d2.title = newTitle.trim) ∧
      (newTitle.trim = "" → d2.title = "Untitled")) := by
  have hown : (d.ownerId == u) = true := by simp [howner]
  constructor
  · refine ⟨_,
      { id := db.nextId,
        title := if (title?.getD "Untitled").trim == "" then "Untitled"
                 else (title?.getD "Untitled").trim,
        ownerId := u, visibility := vis?.getD .private_, updatedAt := now, lastSeq := 0 },
      rfl, ?_, ?_, ?_, ?_⟩
    · show List.find? (fun x : Document => x.id == db.nextId) (db.documents ++ [_]) = some _
      rw [List.find?_append]
      have h1 : db.documents.find? (fun x => x.id == db.nextId) = none :=
        List.find?_eq_none.mpr (fun x hx => by simp [hfresh x hx])
      rw [h1]
      simp
    · by_cases ht : (title?.getD "Untitled").trim = "" <;> simp [ht]
    · intro ht; simp [ht]
    · intro ht; simp [ht]
  · refine ⟨{ db with
               documents := db.documents.map (fun x : Document =>
                 if x.id == docId then
                   { x with
                      title := if newTitle.trim == "" then "Untitled" else newTitle.trim,
                      updatedAt := now }
                 else x) },
      { d with title := if newTitle.trim == "" then "Untitled" else newTitle.trim,
               updatedAt := now },
      ?_, ?_, ?_, ?_, ?_⟩
    · simp only [updateTitle, hfind, hown, if_true]
    · exact find?_map_patch db.documents docId
        (fun x : Document => { x with
                                title := if newTitle.trim == "" then "Untitled" else newTitle.trim,
                                updatedAt := now })
        (fun _ => rfl) d hfind
    · by_cases ht : newTitle.trim = "" <;> simp [ht]
    · intro ht; simp [ht]
    · intro ht; simp [ht]

/-- Witness for C10: alice creates a document with a whitespace-only title
and renames her existing document to "  Roadmap  "; the stored titles are
"Untitled" and "Roadmap". -/
theorem titles_never_empty_witness :
    (∃ db2 d2, create dbOwner (some "alice") (some "   ") none 7 = .ok (db2, dbOwner.nextId) ∧
      findDoc db2 dbOwner.nextId = some d2 ∧ d2.title ≠ "" ∧
      (((some "   " : Option String).getD "Untitled").trim ≠ "" →
        d2.title = ((some "   " : Option String).getD "Untitled").trim) ∧
      (((some "   " : Option String).getD "Untitled").trim = "" → d2.title = "Untitled")) ∧
    (∃ db2 d2, updateTitle dbOwner (some "alice") 1 "  Roadmap  " 7 = .ok db2 ∧
      findDoc db2 1 = some d2 ∧ d2.title ≠ "" ∧
      ("  Roadmap  ".trim ≠ "" → d2.title = "  Roadmap  ".trim) ∧
      ("  Roadmap  ".trim = "" → d2.title = "Untitled")) :=
  titles_never_empty dbOwner "alice" (some "   ") none 7 1 "  Roadmap  " docAlice
    (by decide) (by decide) (by decide)

/-- `canEdit` depends only on the membership table, the owner, and the
document id, so it is preserved by `submitUpdate`'s patch. -/
theorem canEdit_congr (db db2 : DB) (d d2 : Document) (u : Option String)
    (hm : db2.documentMembers = db.documentMembers)
    (ho : d2.ownerId = d.ownerId) (hi : d2.id = d.id) :
    canEdit db2 d2 u = canEdit db d u := by
  cases u with
  | none => rfl
  | some uid => simp [canEdit, getMemberRole, hm, ho, hi]

/-- One successful `submitUpdate` transaction: bump `lastSeq` to
`d.lastSeq + 1`, stamp `updatedAt`, append the update row, return the seq. -/
theorem submitUpdate_step (db : DB) (u : String) (docId : Nat) (payload : List Nat)
    (clientId : Nat) (now : Int) (d : Document)
    (hfind : findDoc db docId = some d) (hedit : canEdit db d (some u) = true) :
    submitUpdate db (some u) docId payload clientId now =
      .ok ({ db with
              documents := db.documents.map (fun x : Document =>
                if x.id == docId then { x with lastSeq := d.lastSeq + 1, updatedAt := now }
                else x),
              documentUpdates := db.documentUpdates ++
                [{ docId := docId, seq := d.lastSeq + 1, update := payload,
                   userId := u, clientId := clientId, createdAt := now }] },
        d.lastSeq + 1) := by
  simp only [submitUpdate, hfind, hedit, if_true]

/-- `findDoc` after patching the matched document through an id-preserving
function (the `documentUpdates` table does not matter to lookups). -/
theorem findDoc_patch (db : DB) (docId : Nat) (d : Document)
    (f : Document → Document) (hf : ∀ x, (f x).id = x.id)
    (h : findDoc db docId = some d) (ups : List UpdateRow) :
    findDoc { db with
               documents := db.documents.map (fun x => if x.id == docId then f x else x),
               documentUpdates := ups } docId = some (f d) :=
  find?_map_patch db.documents docId f hf d h

/-- A serialized run of `submitUpdate` calls — each from its own caller,
clientId, and timestamp — assigns consecutive seqs: starting from a
document with counter `s`, the k-th committing call returns `s + k` and
the counter ends at `s + N`.  The edit permission of every participating
caller is checked against the initial state; `submitUpdate` never touches
the membership table, the owner, or the document id, so the permission
carries to every intermediate state. -/
theorem submitRun_ok (docId : Nat) :
    ∀ (calls : List SubmitCall) (db : DB) (d : Document),
      findDoc db docId = some d →
      (∀ c ∈ calls, canEdit db d (some c.caller) = true) →
      ∃ db2 d2, submitRun db docId calls =
          .ok (db2, List.range' (d.lastSeq + 1) calls.length) ∧
        findDoc db2 docId = some d2 ∧ d2.lastSeq = d.lastSeq + calls.length := by
  intro calls
  induction calls with
  | nil =>
    intro db d h1 _
    exact ⟨db, d, by simp [submitRun], h1, by simp⟩
  | cons c cs ih =>
    intro db d h1 h2
    have hrun := submitUpdate_step db c.caller docId c.payload c.clientId c.now d h1
      (h2 c (List.mem_cons_self c cs))
    obtain ⟨db2, d2, hrun2, hfind2, hlast⟩ := ih
      { db with
        documents := db.documents.map (fun x : Document =>
          if x.id == docId then { x with lastSeq := d.lastSeq + 1, updatedAt := c.now }
          else x),
        documentUpdates := db.documentUpdates ++
          [{ docId := docId, seq := d.lastSeq + 1, update := c.payload,
             userId := c.caller, clientId := c.clientId, createdAt := c.now }] }
      { d with lastSeq := d.lastSeq + 1, updatedAt := c.now }
      (findDoc_patch db docId d
        (fun x : Document => { x with lastSeq := d.lastSeq + 1, updatedAt := c.now })
        (fun _ => rfl) h1 _)
      (fun c' hc' =>
        (canEdit_congr db _ d _ (some c'.caller) rfl rfl rfl).trans
          (h2 c' (List.mem_cons_of_mem c hc')))
    refine ⟨db2, d2, ?_, hfind2, ?_⟩
    · simp only [submitRun, hrun, hrun2, List.length_cons, List.range'_succ]
    · have hproj : ({ d with lastSeq := d.lastSeq + 1, updatedAt := c.now } : Document).lastSeq
          = d.lastSeq + 1 := rfl
      rw [hproj] at hlast
      simp only [List.length_cons]
      omega

/-- C1: Convex runs concurrent mutations as serializable transactions, so
any N concurrent `submitUpdate` calls on one document — from the same or
different editors/replicas, each with its own caller identity, clientId,
and timestamp — commit in some sequential order `calls`; each transaction
atomically bumps the counter and inserts the update row (one state
transition of the embedding).  Starting from `lastSeq = s`, a single
successful call returns `s + 1` and leaves `doc.lastSeq` equal to that
seq, and every serialized order of the N calls returns exactly the seqs
`s+1, …, s+N` (`List.range'`), each assigned once, with no collision or
gap, ending with `doc.lastSeq = s + N`. -/
theorem submit_seq_gapless (db : DB) (u : String) (docId : Nat)
    (payload : List Nat) (clientId : Nat) (now : Int)
    (calls : List SubmitCall) (d : Document)
    (hfind : findDoc db docId = some d) (hedit : canEdit db d (some u) = true)
    (hedits : ∀ c ∈ calls, canEdit db d (some c.caller) = true) :
    (∃ db1 d1, submitUpdate db (some u) docId payload clientId now = .ok (db1, d.lastSeq + 1) ∧
      findDoc db1 docId = some d1 ∧ d1.lastSeq = d.lastSeq + 1) ∧
    (∃ db2 d2, submitRun db docId calls =
        .ok (db2, List.range' (d.lastSeq + 1) calls.length) ∧
      findDoc db2 docId = some d2 ∧ d2.lastSeq = d.lastSeq + calls.length) := by
  constructor
  · exact ⟨_, { d with lastSeq := d.lastSeq + 1, updatedAt := now },
      submitUpdate_step db u docId payload clientId now d hfind hedit,
      findDoc_patch db docId d
        (fun x : Document => { x with lastSeq := d.lastSeq + 1, updatedAt := now })
        (fun _ => rfl) hfind _, rfl⟩
  · exact submitRun_ok docId calls db d hfind hedits

/-- Witness for C1: on `dbTwoEditors` (alice's document at `lastSeq = 5`,
carol an editor member) a single append by alice returns seq 6, and a
serialized interleaving of three concurrent appends from the two distinct
sessions (alice with clientId 5, carol with clientId 6) returns exactly
`[6, 7, 8]`, leaving `lastSeq = 8`. -/
theorem submit_seq_gapless_witness :
    (∃ db1 d1, submitUpdate dbTwoEditors (some "alice") 1 [9] 5 100 =
        .ok (db1, docAlice.lastSeq + 1) ∧
      findDoc db1 1 = some d1 ∧ d1.lastSeq = docAlice.lastSeq + 1) ∧
    (∃ db2 d2, submitRun dbTwoEditors 1 callsTwoEditors =
        .ok (db2, List.range' (docAlice.lastSeq + 1) callsTwoEditors.length) ∧
      findDoc db2 1 = some d2 ∧ d2.lastSeq = docAlice.lastSeq + callsTwoEditors.length) :=
  submit_seq_gapless dbTwoEditors "alice" 1 [9] 5 100 callsTwoEditors docAlice
    (by decide) (by decide) (by decide)

end Chotion
